import Mathlib

/-!
Shallow embedding of the delta-neutral options trading strategy
(`src/strategy/portfolio.py`, `src/strategy/delta_neutral.py`,
`src/trading/paper_trading.py`, `src/utils/config.py`).

Python `Decimal`/`float` arithmetic is modelled over `ℚ`; Python `int` over `ℤ`
(`ℕ` for the nonnegative `max_positions` count); dictionaries over association
lists preserving insertion order; code that can raise returns `Except`.
-/

deriving instance DecidableEq for Except

open scoped List

namespace VikasStrategy

/-- Runtime errors the Python code can raise on the modelled paths. -/
inductive Err where
  | divisionByZero
  | indexError
  deriving DecidableEq, Repr

/-- One element of an options chain / options-data list (a Python dict with
the keys read by the strategy code). -/
structure OptionData where
  symbol : String
  last_price : ℚ
  bid_price : ℚ
  ask_price : ℚ
  instrument_type : String
  strike : ℚ
  expiry : String
  underlying_price : ℚ
  deriving DecidableEq, Repr

/-- `Position` dataclass from `src/strategy/portfolio.py`. -/
structure Position where
  symbol : String
  quantity : ℤ
  entry_price : ℚ
  current_price : ℚ
  delta : ℚ
  option_type : String
  strike_price : ℤ
  expiry : String
  deriving DecidableEq, Repr

/-- `Position.pnl`: `(current_price - entry_price) * quantity`. -/
def Position.pnl (p : Position) : ℚ :=
  (p.current_price - p.entry_price) * p.quantity

/-- `Position.net_delta`: `delta * quantity`. -/
def Position.net_delta (p : Position) : ℚ :=
  p.delta * p.quantity

/-- `PortfolioManager` state: the `positions` dict (symbol to Position,
insertion ordered) and `target_delta`. -/
structure PortfolioManager where
  positions : List (String × Position)
  target_delta : ℚ
  deriving DecidableEq, Repr

/-- `PortfolioManager.total_delta`: sum of `net_delta` over all positions. -/
def PortfolioManager.total_delta (pm : PortfolioManager) : ℚ :=
  (pm.positions.map (fun e => e.2.net_delta)).sum

/-- `PortfolioManager.delta_deviation`: `total_delta - target_delta`. -/
def PortfolioManager.delta_deviation (pm : PortfolioManager) : ℚ :=
  pm.total_delta - pm.target_delta

/-- An adjustment-trade suggestion dict produced by `get_adjustment_trades`. -/
structure Adjustment where
  action : String
  option_type : String
  target_delta : ℚ
  deriving DecidableEq, Repr

/-- `PortfolioManager.get_adjustment_trades` from `src/strategy/portfolio.py`. -/
def PortfolioManager.get_adjustment_trades (pm : PortfolioManager)
    (threshold : ℚ) : List Adjustment :=
  let deviation := pm.delta_deviation
  if |deviation| ≤ threshold then []
  else if deviation > threshold then
    [{ action := "BUY", option_type := "PE", target_delta := -deviation }]
  else if deviation < -threshold then
    [{ action := "BUY", option_type := "CE", target_delta := |deviation| }]
  else []

/-- The configuration values read by `DeltaNeutralStrategy`. -/
structure Config where
  capital : ℚ
  max_loss_percentage : ℚ
  target_profit_percentage : ℚ
  target_delta : ℚ
  position_sizing : ℚ
  adjustment_threshold : ℚ
  min_premium : ℚ
  max_positions : ℕ
  deriving DecidableEq, Repr

/-- An exit-signal dict produced by `get_exit_signals`. -/
structure ExitSignal where
  symbol : String
  action : String
  quantity : ℤ
  reason : String
  deriving DecidableEq, Repr

/-- An entry-signal dict produced by `get_entry_signals`. -/
structure EntrySignal where
  symbol : String
  action : String
  quantity : ℤ
  option_type : String
  strike_price : ℚ
  expiry : String
  deriving DecidableEq, Repr

/-- The exact value of `pnl / (entry_price * quantity)` as a total function
(meaningful when the denominator is nonzero). -/
def pnl_pct (p : Position) : ℚ :=
  p.pnl / (p.entry_price * p.quantity)

/-- The `pnl_percentage` computation in `get_exit_signals`; Python raises
`ZeroDivisionError` when `entry_price * quantity` is zero. -/
def pnlPercentage (p : Position) : Except Err ℚ :=
  if p.entry_price * (p.quantity : ℚ) = 0 then .error .divisionByZero
  else .ok (p.pnl / (p.entry_price * p.quantity))

/-- The loop body of `DeltaNeutralStrategy.get_exit_signals`, iterating the
positions dict in order; the first raised error aborts the whole call. -/
def exitSignalsLoop (tp ml : ℚ) :
    List (String × Position) → Except Err (List ExitSignal)
  | [] => .ok []
  | e :: rest =>
    match pnlPercentage e.2 with
    | .error err => .error err
    | .ok pct =>
      match exitSignalsLoop tp ml rest with
      | .error err => .error err
      | .ok sigs =>
        if pct ≥ tp ∨ pct ≤ -ml then
          .ok ({ symbol := e.1, action := "SELL", quantity := e.2.quantity,
                 reason := if pct ≥ tp then "target_hit" else "stop_loss" } :: sigs)
        else .ok sigs

/-- `DeltaNeutralStrategy.get_exit_signals` over the portfolio's positions. -/
def get_exit_signals (cfg : Config) (positions : List (String × Position)) :
    Except Err (List ExitSignal) :=
  exitSignalsLoop (cfg.target_profit_percentage / 100)
    (cfg.max_loss_percentage / 100) positions

/-- The decision the `get_exit_signals` loop body makes for one position
whose `pnl_percentage` computation succeeds: the emitted signal, if any. -/
def exitDecision (tp ml : ℚ) (e : String × Position) : Option ExitSignal :=
  if pnl_pct e.2 ≥ tp ∨ pnl_pct e.2 ≤ -ml then
    some { symbol := e.1, action := "SELL", quantity := e.2.quantity,
           reason := if pnl_pct e.2 ≥ tp then "target_hit" else "stop_loss" }
  else none

/-- Python `int(x)` applied to a real value: truncation toward zero. -/
def pyInt (x : ℚ) : ℤ :=
  if 0 ≤ x then ⌊x⌋ else ⌈x⌉

/-- `DeltaNeutralStrategy.calculate_position_size`; Python raises
`ZeroDivisionError` when the option price is zero. -/
def calculate_position_size (cfg : Config) (opt : OptionData) : Except Err ℤ :=
  if opt.last_price = 0 then .error .divisionByZero
  else
    .ok (max 1 (pyInt
      ((pyInt (cfg.capital * (cfg.max_loss_percentage / 100) / opt.last_price) : ℚ) *
        cfg.position_sizing)))

/-- Bid-ask-spread sort key used by `select_options`. -/
def spread (o : OptionData) : ℚ :=
  |o.bid_price - o.ask_price|

/-- Strike-distance-from-spot sort key used by `select_options`. -/
def strikeDist (spot : ℚ) (o : OptionData) : ℚ :=
  |o.strike - spot|

/-- `valid_options` in `select_options`: the premium filter. -/
def valid_options (cfg : Config) (options_chain : List OptionData) :
    List OptionData :=
  options_chain.filter (fun o => cfg.min_premium ≤ o.last_price)

/-- The liquidity ranking in `select_options`: Python's stable `list.sort`
keyed by bid-ask spread, modelled by the stable `List.insertionSort`. -/
def sorted_by_spread (cfg : Config) (options_chain : List OptionData) :
    List OptionData :=
  (valid_options cfg options_chain).insertionSort (fun a b => spread a ≤ spread b)

/-- `call_options` in `select_options`. -/
def call_options (cfg : Config) (options_chain : List OptionData) :
    List OptionData :=
  (sorted_by_spread cfg options_chain).filter (fun o => o.instrument_type = "CE")

/-- `put_options` in `select_options`. -/
def put_options (cfg : Config) (options_chain : List OptionData) :
    List OptionData :=
  (sorted_by_spread cfg options_chain).filter (fun o => o.instrument_type = "PE")

/-- The per-side step of `select_options`: stable sort by strike distance
from spot, then take the first `max_positions // 2` (`ℕ` division). -/
def side_selected (cfg : Config) (spot_price : ℚ) (side : List OptionData) :
    List OptionData :=
  (side.insertionSort
      (fun a b => strikeDist spot_price a ≤ strikeDist spot_price b)).take
    (cfg.max_positions / 2)

/-- `DeltaNeutralStrategy.select_options`: concatenate the call-side and
put-side selections, truncate to `max_positions`. -/
def select_options (cfg : Config) (spot_price : ℚ)
    (options_chain : List OptionData) : List OptionData :=
  (side_selected cfg spot_price (call_options cfg options_chain) ++
    side_selected cfg spot_price (put_options cfg options_chain)).take
    cfg.max_positions

/-- `DeltaNeutralStrategy.get_entry_signals`; `options_data[0]` raises
`IndexError` on an empty list. -/
def get_entry_signals (cfg : Config) (positions : List (String × Position))
    (options_data : List OptionData) : Except Err (List EntrySignal) :=
  if positions.length ≥ cfg.max_positions then .ok []
  else
    match options_data with
    | [] => .error .indexError
    | first :: _ =>
      (select_options cfg first.underlying_price options_data).mapM
        (fun opt =>
          (calculate_position_size cfg opt).map
            (fun q =>
              { symbol := opt.symbol, action := "BUY", quantity := q,
                option_type := opt.instrument_type, strike_price := opt.strike,
                expiry := opt.expiry }))

/-- The market-data dict entry read by `PaperTradingExecutor.place_order`. -/
structure MarketQuote where
  last_price : ℚ
  delta : ℚ
  instrument_type : String
  strike : ℤ
  expiry : String
  deriving DecidableEq, Repr

/-- Lookup in an insertion-ordered dict modelled as an association list. -/
def lookupPos : List (String × Position) → String → Option Position
  | [], _ => none
  | e :: rest, s => if e.1 == s then some e.2 else lookupPos rest s

/-- Dict assignment `m[s] = p`: replace the binding if present, else append. -/
def dictInsert : List (String × Position) → String → Position →
    List (String × Position)
  | [], s, p => [(s, p)]
  | e :: rest, s, p =>
    if e.1 == s then (s, p) :: rest else e :: dictInsert rest s p

/-- Dict deletion `del m[s]`. -/
def dictErase : List (String × Position) → String → List (String × Position)
  | [], _ => []
  | e :: rest, s =>
    if e.1 == s then dictErase rest s else e :: dictErase rest s

/-- `PaperTradingExecutor.place_order` position-book effect, with the fill
taken at `quote.last_price` (the market data the executor fetched for the
symbol).  A BUY on a held symbol merges quantity and volume-weighted average
entry price — the `Decimal` division raises `DivisionByZero` when the merged
quantity `pos.quantity + quantity` is zero; a SELL decrements and deletes the
position when its quantity drops to zero or below. -/
def place_order (m : List (String × Position)) (symbol : String)
    (quantity : ℤ) (side : String) (quote : MarketQuote) :
    Except Err (List (String × Position)) :=
  if side = "BUY" then
    match lookupPos m symbol with
    | none =>
      .ok (dictInsert m symbol
        { symbol := symbol, quantity := quantity,
          entry_price := quote.last_price, current_price := quote.last_price,
          delta := quote.delta, option_type := quote.instrument_type,
          strike_price := quote.strike, expiry := quote.expiry })
    | some pos =>
      if pos.quantity + quantity = 0 then .error .divisionByZero
      else
        .ok (dictInsert m symbol
          { pos with
            quantity := pos.quantity + quantity,
            entry_price := (pos.entry_price * pos.quantity +
                quote.last_price * quantity) / ((pos.quantity : ℚ) + quantity) })
  else if side = "SELL" then
    match lookupPos m symbol with
    | some pos =>
      if pos.quantity - quantity ≤ 0 then .ok (dictErase m symbol)
      else .ok (dictInsert m symbol { pos with quantity := pos.quantity - quantity })
    | none => .ok m
  else .ok m

/-- One order request fed to the paper-trading executor. -/
structure OrderReq where
  symbol : String
  quantity : ℤ
  side : String
  quote : MarketQuote
  deriving DecidableEq, Repr

/-- Run a sequence of orders against a given position book; the first raised
error aborts the run. -/
def runOrdersFrom :
    List (String × Position) → List OrderReq →
      Except Err (List (String × Position))
  | m, [] => .ok m
  | m, o :: rest =>
    match place_order m o.symbol o.quantity o.side o.quote with
    | .error e => .error e
    | .ok m2 => runOrdersFrom m2 rest

/-- Run a sequence of orders against an initially empty position book. -/
def run_orders (orders : List OrderReq) :
    Except Err (List (String × Position)) :=
  runOrdersFrom [] orders

/-- `PortfolioManager.update_position` restricted to the fields
`get_exit_signals`' caller passes (`current_price` and `delta`): a no-op when
the symbol is absent, otherwise overwrite the two fields in place. -/
def update_position (m : List (String × Position)) (symbol : String)
    (current_price delta : ℚ) : List (String × Position) :=
  m.map (fun e =>
    if e.1 == symbol then
      (e.1, { e.2 with current_price := current_price, delta := delta })
    else e)

/-- Lookup in the market-data snapshot dict. -/
def lookupQuote : List (String × MarketQuote) → String → Option MarketQuote
  | [], _ => none
  | e :: rest, s => if e.1 == s then some e.2 else lookupQuote rest s

/-- `DeltaNeutralStrategy.update_positions`: loop over the open positions'
symbols; for each symbol present in the market-data snapshot, call
`update_position` with the snapshot's `last_price` and `delta`. -/
def update_positions (market_data : List (String × MarketQuote))
    (m : List (String × Position)) : List (String × Position) :=
  (m.map Prod.fst).foldl
    (fun acc symbol =>
      match lookupQuote market_data symbol with
      | some d => update_position acc symbol d.last_price d.delta
      | none => acc) m

/-- The effect of one `update_positions` loop iteration (for symbol `s`) on
one dict entry: when `s` is in the snapshot and the entry's key is `s`,
overwrite `current_price` and `delta`, else leave the entry alone. -/
def touchEntry (md : List (String × MarketQuote)) (s : String)
    (e : String × Position) : String × Position :=
  match lookupQuote md s with
  | some d =>
    if e.1 == s then
      (e.1, { e.2 with current_price := d.last_price, delta := d.delta })
    else e
  | none => e

/-- The cumulative effect of the whole `update_positions` loop on one entry. -/
def applyAll (md : List (String × MarketQuote)) (syms : List String)
    (e : String × Position) : String × Position :=
  syms.foldl (fun x s => touchEntry md s x) e

/-- The pointwise specification of `update_positions`: mark the entry with
the snapshot's price and delta when its symbol is in the snapshot. -/
def markEntry (md : List (String × MarketQuote)) (e : String × Position) :
    String × Position :=
  match lookupQuote md e.1 with
  | some d => (e.1, { e.2 with current_price := d.last_price, delta := d.delta })
  | none => e

/-- Default entry used with `List.getD` in indexed statements. -/
def dummyEntry : String × Position :=
  ("", { symbol := "", quantity := 0, entry_price := 0, current_price := 0,
         delta := 0, option_type := "", strike_price := 0, expiry := "" })

/-- A configuration document, reduced to what `_validate_config` inspects:
which sections exist and which field names each section contains. -/
abbrev ConfigDoc := List (String × List String)

/-- `ConfigManager.REQUIRED_FIELDS` from `src/utils/config.py`. -/
def REQUIRED_FIELDS : List (String × List String) :=
  [("trading", ["mode", "capital", "max_loss_percentage", "target_profit_percentage"]),
   ("strategy", ["target_delta", "position_sizing", "adjustment_threshold"]),
   ("zerodha", ["api_key", "api_secret"])]

/-- Section lookup in a configuration document. -/
def lookupSection : ConfigDoc → String → Option (List String)
  | [], _ => none
  | e :: rest, s => if e.1 == s then some e.2 else lookupSection rest s

/-- The inner field loop of `ConfigManager._validate_config`. -/
def checkFields (sec : String) (present : List String) :
    List String → Except String Unit
  | [] => .ok ()
  | f :: rest =>
    if present.contains f then checkFields sec present rest
    else .error ("Missing required config field: " ++ sec ++ "." ++ f)

/-- The outer section loop of `ConfigManager._validate_config`. -/
def checkSections (doc : ConfigDoc) :
    List (String × List String) → Except String Unit
  | [] => .ok ()
  | sf :: rest =>
    match lookupSection doc sf.1 with
    | none => .error ("Missing required config section: " ++ sf.1)
    | some present =>
      match checkFields sf.1 present sf.2 with
      | .error e => .error e
      | .ok _ => checkSections doc rest

/-- `ConfigManager._validate_config`, run by the constructor; an `.error`
outcome is the fatal `ValueError` at startup. -/
def validate_config (doc : ConfigDoc) : Except String Unit :=
  checkSections doc REQUIRED_FIELDS

/-! ## Concrete fixtures shared by witnesses and counterexamples -/

/-- A representative strategy configuration. -/
def cfgEx : Config :=
  { capital := 100000, max_loss_percentage := 5, target_profit_percentage := 15,
    target_delta := 0, position_sizing := 1/2, adjustment_threshold := 1/10,
    min_premium := 2, max_positions := 5 }

/-- A long call position: entry 100, marked at 120, quantity 10. -/
def posW : Position :=
  { symbol := "X", quantity := 10, entry_price := 100, current_price := 120,
    delta := 1/2, option_type := "CE", strike_price := 100, expiry := "E" }

/-- A freshly bought position: 10 contracts at entry 100. -/
def posB : Position :=
  { symbol := "X", quantity := 10, entry_price := 100, current_price := 100,
    delta := 1/2, option_type := "CE", strike_price := 100, expiry := "E" }

/-- A market quote at 110. -/
def quoteW : MarketQuote :=
  { last_price := 110, delta := 1/2, instrument_type := "CE", strike := 100,
    expiry := "E" }

/-- A one-position book holding `posB`. -/
def m1 : List (String × Position) := [("X", posB)]

/-- A short put position used as a second book entry. -/
def posY : Position :=
  { symbol := "Y", quantity := 5, entry_price := 50, current_price := 50,
    delta := -(1/2), option_type := "PE", strike_price := 90, expiry := "E" }

/-- A market-data snapshot quoting only symbol `X`. -/
def mdW : List (String × MarketQuote) :=
  [("X", { last_price := 120, delta := 3/5, instrument_type := "CE",
           strike := 100, expiry := "E" })]

/-- A two-position book over symbols `X` and `Y`. -/
def mW : List (String × Position) := [("X", posB), ("Y", posY)]

/-- A call option at strike 110. -/
def cW1 : OptionData :=
  { symbol := "C1", last_price := 30, bid_price := 30, ask_price := 31,
    instrument_type := "CE", strike := 110, expiry := "E",
    underlying_price := 100 }

/-- A call option at strike 105 (closer to the money than `cW1`). -/
def cW2 : OptionData :=
  { symbol := "C2", last_price := 25, bid_price := 25, ask_price := 26,
    instrument_type := "CE", strike := 105, expiry := "E",
    underlying_price := 100 }

/-- A put option at strike 95. -/
def pW1 : OptionData :=
  { symbol := "P1", last_price := 28, bid_price := 28, ask_price := 29,
    instrument_type := "PE", strike := 95, expiry := "E",
    underlying_price := 100 }

/-- A three-option chain: two calls, one put. -/
def chainW : List OptionData := [cW1, cW2, pW1]

/-- A call tying with `cT2` in both selection keys (spread 1, distance 5). -/
def cT1 : OptionData :=
  { symbol := "T1", last_price := 10, bid_price := 10, ask_price := 11,
    instrument_type := "CE", strike := 105, expiry := "E",
    underlying_price := 100 }

/-- A call tying with `cT1` in both selection keys (spread 1, distance 5). -/
def cT2 : OptionData :=
  { symbol := "T2", last_price := 12, bid_price := 20, ask_price := 21,
    instrument_type := "CE", strike := 95, expiry := "E",
    underlying_price := 100 }

/-- A two-option chain of full-tie calls. -/
def chainT : List OptionData := [cT1, cT2]

/-! ## Claim theorems -/

/-- C1: for every portfolio state and every (nonnegative) threshold,
`get_adjustment_trades` returns the empty list iff
`|total_delta - target_delta| ≤ threshold`; otherwise it returns exactly one
trade — a BUY of option type `PE` with `target_delta = -deviation` when the
deviation exceeds `threshold`, and a BUY of option type `CE` with
`target_delta = |deviation|` when the deviation is below `-threshold`. -/
theorem get_adjustment_trades_spec (pm : PortfolioManager) (threshold : ℚ)
    (hth : 0 ≤ threshold) :
    (pm.get_adjustment_trades threshold = [] ↔
      |pm.total_delta - pm.target_delta| ≤ threshold) ∧
    (¬|pm.total_delta - pm.target_delta| ≤ threshold →
      (pm.get_adjustment_trades threshold).length = 1) ∧
    (pm.total_delta - pm.target_delta > threshold →
      pm.get_adjustment_trades threshold =
        [{ action := "BUY", option_type := "PE",
           target_delta := -(pm.total_delta - pm.target_delta) }]) ∧
    (pm.total_delta - pm.target_delta < -threshold →
      pm.get_adjustment_trades threshold =
        [{ action := "BUY", option_type := "CE",
           target_delta := |pm.total_delta - pm.target_delta| }]) := by
  have hdev : pm.delta_deviation = pm.total_delta - pm.target_delta := rfl
  unfold PortfolioManager.get_adjustment_trades
  rw [hdev]
  set d := pm.total_delta - pm.target_delta with hd
  by_cases habs : |d| ≤ threshold
  · rw [if_pos habs]
    refine ⟨iff_of_true rfl habs, fun h => absurd habs h, fun h1 => ?_, fun h1 => ?_⟩
    · exact absurd habs (by have := le_abs_self d; intro _; linarith)
    · exact absurd habs (by have := neg_abs_le d; intro _; linarith)
  · have hsplit : d < -threshold ∨ threshold < d := by
      rwa [abs_le, not_and_or, not_le, not_le] at habs
    rcases hsplit with hlt | hgt
    · have hngt : ¬d > threshold := by linarith
      rw [if_neg habs, if_neg hngt, if_pos hlt]
      exact ⟨iff_of_false (by simp) habs, fun _ => rfl,
        fun h1 => absurd h1 hngt, fun _ => rfl⟩
    · rw [if_neg habs, if_pos hgt]
      exact ⟨iff_of_false (by simp) habs, fun _ => rfl, fun _ => rfl,
        fun h1 => absurd h1 (by linarith)⟩

/-- C1 witness: a single long call with delta 0.5 and quantity 10 against
target 0 and threshold 1 yields exactly one BUY PE trade with
target_delta -5. -/
theorem get_adjustment_trades_spec_witness :
    (0:ℚ) ≤ 1 ∧
    PortfolioManager.get_adjustment_trades
        { positions := [("X", posW)], target_delta := 0 } 1 =
      [{ action := "BUY", option_type := "PE", target_delta := -5 }] := by
  refine ⟨by norm_num, ?_⟩
  have h := (get_adjustment_trades_spec
    { positions := [("X", posW)], target_delta := 0 } 1 (by norm_num)).2.2.1
    (by norm_num [PortfolioManager.total_delta, Position.net_delta, posW])
  rw [h]
  norm_num [PortfolioManager.total_delta, Position.net_delta, posW]

/-- A successful per-position decision carries the entry's symbol, its full
quantity, SELL, and only fires on the exit condition. -/
theorem exitDecision_some (tp ml : ℚ) (e : String × Position) (s : ExitSignal)
    (h : exitDecision tp ml e = some s) :
    s.symbol = e.1 ∧ s.action = "SELL" ∧ s.quantity = e.2.quantity ∧
      (pnl_pct e.2 ≥ tp ∨ pnl_pct e.2 ≤ -ml) := by
  by_cases hc : pnl_pct e.2 ≥ tp ∨ pnl_pct e.2 ≤ -ml
  · simp only [exitDecision, if_pos hc, Option.some.injEq] at h
    rw [← h]
    exact ⟨rfl, rfl, rfl, hc⟩
  · simp only [exitDecision, if_neg hc] at h
    cases h

/-- With every position's `pnl_percentage` denominator nonzero, the exit loop
succeeds and returns exactly the per-position decisions, in book order. -/
theorem exitSignalsLoop_eq (tp ml : ℚ) :
    ∀ ps : List (String × Position),
      (∀ e ∈ ps, e.2.entry_price ≠ 0 ∧ e.2.quantity ≠ 0) →
      exitSignalsLoop tp ml ps = .ok (ps.filterMap (exitDecision tp ml)) := by
  intro ps
  induction ps with
  | nil => intro _; rfl
  | cons e rest ih =>
    intro hall
    have he := hall e (List.mem_cons_self e rest)
    have hden : e.2.entry_price * (e.2.quantity : ℚ) ≠ 0 :=
      mul_ne_zero he.1 (Int.cast_ne_zero.mpr he.2)
    have hpp : pnlPercentage e.2 = .ok (pnl_pct e.2) := by
      unfold pnlPercentage pnl_pct
      rw [if_neg hden]
    have hrest := ih (fun e1 he1 => hall e1 (List.mem_cons_of_mem e he1))
    simp only [exitSignalsLoop, hpp, hrest]
    by_cases hc : pnl_pct e.2 ≥ tp ∨ pnl_pct e.2 ≤ -ml
    · rw [List.filterMap_cons_some
        (show exitDecision tp ml e =
          some { symbol := e.1, action := "SELL", quantity := e.2.quantity,
                 reason := if pnl_pct e.2 ≥ tp then "target_hit"
                   else "stop_loss" } by
          simp only [exitDecision, if_pos hc]), if_pos hc]
    · rw [List.filterMap_cons_none
        (show exitDecision tp ml e = none by
          simp only [exitDecision, if_neg hc]), if_neg hc]

/-- C2: over any portfolio whose open positions all have nonzero entry price
and quantity (with positive configured percentages and the dict's unique
keys), `get_exit_signals` succeeds, returning the per-position decisions;
each position gets a SELL of its full quantity with reason target_hit when
`pnl_pct` reaches the target-profit fraction, one with reason stop_loss when
it falls to minus the max-loss fraction, and a signal bearing its symbol
exists exactly when one of the two conditions holds. -/
theorem get_exit_signals_spec (cfg : Config) (ps : List (String × Position))
    (htp : 0 < cfg.target_profit_percentage)
    (hml : 0 < cfg.max_loss_percentage)
    (hall : ∀ e ∈ ps, e.2.entry_price ≠ 0 ∧ e.2.quantity ≠ 0)
    (hkeys : (ps.map Prod.fst).Nodup) :
    get_exit_signals cfg ps =
      .ok (ps.filterMap (exitDecision (cfg.target_profit_percentage / 100)
        (cfg.max_loss_percentage / 100))) ∧
    ∀ e ∈ ps,
      (pnl_pct e.2 ≥ cfg.target_profit_percentage / 100 →
        { symbol := e.1, action := "SELL", quantity := e.2.quantity,
          reason := "target_hit" } ∈
          ps.filterMap (exitDecision (cfg.target_profit_percentage / 100)
            (cfg.max_loss_percentage / 100))) ∧
      (pnl_pct e.2 ≤ -(cfg.max_loss_percentage / 100) →
        { symbol := e.1, action := "SELL", quantity := e.2.quantity,
          reason := "stop_loss" } ∈
          ps.filterMap (exitDecision (cfg.target_profit_percentage / 100)
            (cfg.max_loss_percentage / 100))) ∧
      ((∃ s ∈ ps.filterMap (exitDecision (cfg.target_profit_percentage / 100)
          (cfg.max_loss_percentage / 100)), s.symbol = e.1) ↔
        (pnl_pct e.2 ≥ cfg.target_profit_percentage / 100 ∨
          pnl_pct e.2 ≤ -(cfg.max_loss_percentage / 100))) := by
  set tp' := cfg.target_profit_percentage / 100 with htpd
  set ml' := cfg.max_loss_percentage / 100 with hmld
  have htp0 : (0:ℚ) < tp' := div_pos htp (by norm_num)
  have hml0 : (0:ℚ) < ml' := div_pos hml (by norm_num)
  refine ⟨exitSignalsLoop_eq tp' ml' ps hall, fun e he => ?_⟩
  have hdec_t : pnl_pct e.2 ≥ tp' →
      exitDecision tp' ml' e =
        some { symbol := e.1, action := "SELL", quantity := e.2.quantity,
               reason := "target_hit" } := by
    intro hc
    simp only [exitDecision, if_pos (Or.inl hc : _ ∨ pnl_pct e.2 ≤ -ml'),
      if_pos hc]
  have hdec_s : pnl_pct e.2 ≤ -ml' →
      exitDecision tp' ml' e =
        some { symbol := e.1, action := "SELL", quantity := e.2.quantity,
               reason := "stop_loss" } := by
    intro hc
    have hnt : ¬(pnl_pct e.2 ≥ tp') := by
      intro hcon
      rw [ge_iff_le] at hcon
      linarith
    simp only [exitDecision, if_pos (Or.inr hc : pnl_pct e.2 ≥ tp' ∨ _),
      if_neg hnt]
  refine ⟨fun hc => List.mem_filterMap.mpr ⟨e, he, hdec_t hc⟩,
    fun hc => List.mem_filterMap.mpr ⟨e, he, hdec_s hc⟩, ?_, ?_⟩
  · rintro ⟨s, hs, hsym⟩
    obtain ⟨e1, he1, hde1⟩ := List.mem_filterMap.mp hs
    obtain ⟨hsym1, -, -, hcond1⟩ := exitDecision_some tp' ml' e1 s hde1
    have hkey : e1.1 = e.1 := by rw [← hsym1, hsym]
    have heq : e1 = e := List.inj_on_of_nodup_map hkeys he1 he hkey
    rw [← heq]
    exact hcond1
  · rintro (hc | hc)
    · exact ⟨_, List.mem_filterMap.mpr ⟨e, he, hdec_t hc⟩, rfl⟩
    · exact ⟨_, List.mem_filterMap.mpr ⟨e, he, hdec_s hc⟩, rfl⟩

/-- C2 witness: the spec scenario — a book holding entry 100, mark 120,
quantity 10 with a 15 percent target yields exactly one SELL of quantity 10
with reason target_hit. -/
theorem get_exit_signals_spec_witness :
    get_exit_signals cfgEx [("X", posW)] =
      .ok [{ symbol := "X", action := "SELL", quantity := 10,
             reason := "target_hit" }] := by
  have h := (get_exit_signals_spec cfgEx [("X", posW)] (by norm_num [cfgEx])
    (by norm_num [cfgEx])
    (by
      intro e he
      rw [List.mem_singleton] at he
      subst he
      exact ⟨by norm_num [posW], by norm_num [posW]⟩)
    (by decide)).1
  rw [h]
  norm_num [exitDecision, pnl_pct, Position.pnl, posW, cfgEx,
    List.filterMap_cons, List.filterMap_nil]

/-- C4: the claim's division-by-zero guard is absent from the code —
`get_exit_signals` raises a division error on a position with zero entry
price (and likewise on a position with zero quantity) instead of skipping
it. -/
theorem get_exit_signals_zero_guard :
    get_exit_signals cfgEx
        [("Z", { symbol := "Z", quantity := 1, entry_price := 0,
                 current_price := 10, delta := 1/2, option_type := "CE",
                 strike_price := 100, expiry := "E" })] =
      .error .divisionByZero ∧
    get_exit_signals cfgEx
        [("W", { symbol := "W", quantity := 0, entry_price := 100,
                 current_price := 110, delta := 1/2, option_type := "CE",
                 strike_price := 100, expiry := "E" })] =
      .error .divisionByZero := by
  constructor <;>
    norm_num [get_exit_signals, exitSignalsLoop, pnlPercentage]

/-- C7: for a positive option price, positive capital and nonnegative
configured percentages, `calculate_position_size` returns
`max 1 ⌊⌊capital * max_loss_percentage / 100 / price⌋ * position_sizing⌋`,
and the returned size is always at least 1. -/
theorem calculate_position_size_spec (cfg : Config) (opt : OptionData)
    (hp : 0 < opt.last_price) (hc : 0 < cfg.capital)
    (hml : 0 ≤ cfg.max_loss_percentage) (hps : 0 ≤ cfg.position_sizing) :
    calculate_position_size cfg opt =
      .ok (max 1 ⌊(⌊cfg.capital * cfg.max_loss_percentage / 100 / opt.last_price⌋ : ℚ) *
        cfg.position_sizing⌋) ∧
    ∀ v, calculate_position_size cfg opt = .ok v → 1 ≤ v := by
  have harg1 : 0 ≤ cfg.capital * (cfg.max_loss_percentage / 100) / opt.last_price :=
    div_nonneg (mul_nonneg hc.le (div_nonneg hml (by norm_num))) hp.le
  have heq : cfg.capital * (cfg.max_loss_percentage / 100) / opt.last_price =
      cfg.capital * cfg.max_loss_percentage / 100 / opt.last_price := by ring
  have h1 : pyInt (cfg.capital * (cfg.max_loss_percentage / 100) / opt.last_price) =
      ⌊cfg.capital * cfg.max_loss_percentage / 100 / opt.last_price⌋ := by
    unfold pyInt; rw [if_pos harg1, heq]
  have hfl : (0:ℤ) ≤ ⌊cfg.capital * cfg.max_loss_percentage / 100 / opt.last_price⌋ :=
    Int.floor_nonneg.mpr (heq ▸ harg1)
  have harg2 : 0 ≤
      (⌊cfg.capital * cfg.max_loss_percentage / 100 / opt.last_price⌋ : ℚ) *
        cfg.position_sizing :=
    mul_nonneg (by exact_mod_cast hfl) hps
  have h2 : pyInt ((⌊cfg.capital * cfg.max_loss_percentage / 100 / opt.last_price⌋ : ℚ) *
      cfg.position_sizing) =
      ⌊(⌊cfg.capital * cfg.max_loss_percentage / 100 / opt.last_price⌋ : ℚ) *
        cfg.position_sizing⌋ := by
    unfold pyInt; rw [if_pos harg2]
  have hmain : calculate_position_size cfg opt =
      .ok (max 1 ⌊(⌊cfg.capital * cfg.max_loss_percentage / 100 / opt.last_price⌋ : ℚ) *
        cfg.position_sizing⌋) := by
    unfold calculate_position_size
    rw [if_neg hp.ne', h1, h2]
  refine ⟨hmain, fun v hv => ?_⟩
  rw [hmain] at hv
  simp only [Except.ok.injEq] at hv
  rw [← hv]
  exact le_max_left _ _

/-- C7 witness: capital 100000, max loss 5 percent, sizing 0.5 and an option
priced 30 size to `max 1 ⌊166 * (1/2)⌋ = 83`. -/
theorem calculate_position_size_spec_witness :
    calculate_position_size cfgEx
        { symbol := "OPT1", last_price := 30, bid_price := 29, ask_price := 31,
          instrument_type := "CE", strike := 100, expiry := "E",
          underlying_price := 100 } =
      .ok 83 := by
  have h := (calculate_position_size_spec cfgEx
    { symbol := "OPT1", last_price := 30, bid_price := 29, ask_price := 31,
      instrument_type := "CE", strike := 100, expiry := "E",
      underlying_price := 100 } (by norm_num) (by norm_num [cfgEx])
    (by norm_num [cfgEx]) (by norm_num [cfgEx])).1
  rw [h]
  have hf1 : ⌊(cfgEx.capital * cfgEx.max_loss_percentage / 100 / 30 : ℚ)⌋ = 166 := by
    rw [Int.floor_eq_iff]
    norm_num [cfgEx]
  rw [hf1]
  have hf2 : ⌊(((166:ℤ) : ℚ) * cfgEx.position_sizing)⌋ = 83 := by
    rw [Int.floor_eq_iff]
    norm_num [cfgEx]
  rw [hf2, max_eq_right (by norm_num : (1:ℤ) ≤ 83)]

/-- C3: `get_entry_signals` does return no signals (without failing) when the
open-position count has reached `max_positions`, even on an empty chain; but
on an empty options chain with capacity remaining it raises an index error
(`options_data[0]` on an empty list) instead of returning the empty list. -/
theorem get_entry_signals_empty_chain :
    get_entry_signals cfgEx [] ([] : List OptionData) = .error .indexError ∧
    get_entry_signals cfgEx (List.replicate 5 ("P", posW)) ([] : List OptionData) =
      .ok [] := by
  exact ⟨rfl, rfl⟩

/-- The field loop of `_validate_config` succeeds iff every required field of
the section is present. -/
theorem checkFields_ok_iff (sec : String) (present : List String)
    (fields : List String) :
    checkFields sec present fields = .ok () ↔ ∀ f ∈ fields, f ∈ present := by
  induction fields with
  | nil => simp [checkFields]
  | cons f rest ih =>
    by_cases h : f ∈ present
    · simp [checkFields, h, ih]
    · simp [checkFields, h]

/-- The section loop of `_validate_config` succeeds iff every listed section
is present with all its listed fields. -/
theorem checkSections_ok_iff (doc : ConfigDoc)
    (reqs : List (String × List String)) :
    checkSections doc reqs = .ok () ↔
      ∀ sf ∈ reqs, ∃ present, lookupSection doc sf.1 = some present ∧
        ∀ f ∈ sf.2, f ∈ present := by
  induction reqs with
  | nil => simp [checkSections]
  | cons sf rest ih =>
    cases hls : lookupSection doc sf.1 with
    | none =>
      refine iff_of_false (fun h => by simp [checkSections, hls] at h)
        (fun h => ?_)
      obtain ⟨p, hp, -⟩ := h sf (List.mem_cons_self sf rest)
      rw [hls] at hp
      cases hp
    | some present =>
      cases hcf : checkFields sf.1 present sf.2 with
      | error e =>
        refine iff_of_false (fun h => by simp [checkSections, hls, hcf] at h)
          (fun h => ?_)
        obtain ⟨p, hp, hf⟩ := h sf (List.mem_cons_self sf rest)
        rw [hls] at hp
        obtain rfl : present = p := by injection hp
        have hok := (checkFields_ok_iff sf.1 present sf.2).mpr hf
        rw [hcf] at hok
        cases hok
      | ok u =>
        cases u
        have hL : checkSections doc (sf :: rest) = checkSections doc rest := by
          simp [checkSections, hls, hcf]
        rw [hL]
        simp only [List.forall_mem_cons]
        exact ⟨fun h =>
            ⟨⟨present, hls, (checkFields_ok_iff sf.1 present sf.2).mp hcf⟩,
              ih.mp h⟩,
          fun h => ih.mpr h.2⟩

/-- C9 counterexample: a configuration document containing exactly the
`REQUIRED_FIELDS` entries — hence with `trading.trading_hours`,
`strategy.min_premium` and `strategy.max_positions` all absent — passes
`_validate_config`, so construction does not fail as the claim states. -/
theorem validate_config_missing_fields_pass :
    validate_config
        [("trading", ["mode", "capital", "max_loss_percentage",
                      "target_profit_percentage"]),
         ("strategy", ["target_delta", "position_sizing", "adjustment_threshold"]),
         ("zerodha", ["api_key", "api_secret"])] = .ok () ∧
    (["target_delta", "position_sizing", "adjustment_threshold"].contains
      "min_premium") = false ∧
    (["target_delta", "position_sizing", "adjustment_threshold"].contains
      "max_positions") = false ∧
    (["mode", "capital", "max_loss_percentage", "target_profit_percentage"].contains
      "trading_hours") = false := by
  exact ⟨rfl, rfl, rfl, rfl⟩

/-- C9 (amended): `_validate_config` succeeds iff every section and field of
the code's `REQUIRED_FIELDS` table is present — the table omits
`trading.trading_hours`, `strategy.min_premium` and `strategy.max_positions`,
so their absence is not a startup error. -/
theorem validate_config_spec (doc : ConfigDoc) :
    validate_config doc = .ok () ↔
      ∀ sf ∈ REQUIRED_FIELDS, ∃ present,
        lookupSection doc sf.1 = some present ∧ ∀ f ∈ sf.2, f ∈ present :=
  checkSections_ok_iff doc REQUIRED_FIELDS

/-- C9 witness: a document with every `REQUIRED_FIELDS` entry (and nothing
more) validates, via the amended specification. -/
theorem validate_config_spec_witness :
    validate_config
        [("trading", ["mode", "capital", "max_loss_percentage",
                      "target_profit_percentage", "trading_hours"]),
         ("strategy", ["target_delta", "position_sizing", "adjustment_threshold",
                       "min_premium", "max_positions"]),
         ("zerodha", ["api_key", "api_secret"])] = .ok () := by
  apply (validate_config_spec _).mpr
  decide

/-- `dictInsert` binds the inserted value to the key. -/
theorem lookupPos_dictInsert_self (m : List (String × Position)) (s : String)
    (p : Position) : lookupPos (dictInsert m s p) s = some p := by
  induction m with
  | nil => simp [dictInsert, lookupPos]
  | cons e rest ih =>
    by_cases h : e.1 == s
    · simp [dictInsert, h, lookupPos]
    · simp [dictInsert, h, lookupPos, ih]

/-- `dictErase` removes the key. -/
theorem lookupPos_dictErase_self (m : List (String × Position)) (s : String) :
    lookupPos (dictErase m s) s = none := by
  induction m with
  | nil => rfl
  | cons e rest ih =>
    by_cases h : e.1 == s
    · simp [dictErase, h, ih]
    · simp [dictErase, h, lookupPos, ih]

/-- Every entry after `dictInsert` is the new binding or an old entry. -/
theorem mem_dictInsert (m : List (String × Position)) (s : String)
    (p : Position) (e : String × Position) (h : e ∈ dictInsert m s p) :
    e = (s, p) ∨ e ∈ m := by
  induction m with
  | nil => simpa [dictInsert] using h
  | cons e1 rest ih =>
    by_cases h1 : e1.1 == s
    · rw [dictInsert, if_pos h1] at h
      rcases List.mem_cons.mp h with h2 | h2
      · exact Or.inl h2
      · exact Or.inr (List.mem_cons_of_mem e1 h2)
    · rw [dictInsert, if_neg h1] at h
      rcases List.mem_cons.mp h with h2 | h2
      · exact Or.inr (h2 ▸ List.mem_cons_self e1 rest)
      · rcases ih h2 with h3 | h3
        · exact Or.inl h3
        · exact Or.inr (List.mem_cons_of_mem e1 h3)

/-- Every entry after `dictErase` was an entry before. -/
theorem mem_dictErase (m : List (String × Position)) (s : String)
    (e : String × Position) (h : e ∈ dictErase m s) : e ∈ m := by
  induction m with
  | nil => simp [dictErase] at h
  | cons e1 rest ih =>
    by_cases h1 : e1.1 == s
    · rw [dictErase, if_pos h1] at h
      exact List.mem_cons_of_mem e1 (ih h)
    · rw [dictErase, if_neg h1] at h
      rcases List.mem_cons.mp h with h2 | h2
      · exact h2 ▸ List.mem_cons_self e1 rest
      · exact List.mem_cons_of_mem e1 (ih h2)

/-- A successful lookup comes from an entry of the dict, keyed as looked
up. -/
theorem lookupPos_mem (m : List (String × Position)) (s : String)
    (p : Position) (h : lookupPos m s = some p) : (s, p) ∈ m := by
  induction m with
  | nil => cases h
  | cons e rest ih =>
    by_cases h1 : e.1 == s
    · rw [lookupPos, if_pos h1] at h
      obtain rfl : e.2 = p := by injection h
      have hs : e.1 = s := eq_of_beq h1
      exact (by rw [← hs]; exact List.mem_cons_self e rest : (s, e.2) ∈ e :: rest)
    · rw [lookupPos, if_neg h1] at h
      exact List.mem_cons_of_mem e (ih h)

/-- One `place_order` call with a positive order quantity succeeds and keeps
every held quantity positive. -/
theorem place_order_preserves_pos (m : List (String × Position)) (s : String)
    (q : ℤ) (side : String) (quote : MarketQuote)
    (hm : ∀ e ∈ m, 0 < e.2.quantity) (hq : 0 < q) :
    ∃ m2, place_order m s q side quote = .ok m2 ∧
      ∀ e ∈ m2, 0 < e.2.quantity := by
  rw [place_order]
  by_cases hb : side = "BUY"
  · rw [if_pos hb]
    cases hlk : lookupPos m s with
    | none =>
      refine ⟨_, rfl, fun e he => ?_⟩
      rcases mem_dictInsert _ _ _ _ he with rfl | hmem
      · exact hq
      · exact hm _ hmem
    | some pos =>
      have hq1 : 0 < pos.quantity := hm _ (lookupPos_mem _ _ _ hlk)
      have hnz : ¬(pos.quantity + q = 0) := by omega
      dsimp only
      rw [if_neg hnz]
      refine ⟨_, rfl, fun e he => ?_⟩
      rcases mem_dictInsert _ _ _ _ he with rfl | hmem
      · exact add_pos hq1 hq
      · exact hm _ hmem
  · rw [if_neg hb]
    by_cases hs : side = "SELL"
    · rw [if_pos hs]
      cases hlk : lookupPos m s with
      | none => exact ⟨m, rfl, hm⟩
      | some pos =>
        dsimp only
        by_cases hz : pos.quantity - q ≤ 0
        · rw [if_pos hz]
          exact ⟨_, rfl, fun e he => hm _ (mem_dictErase _ _ _ he)⟩
        · rw [if_neg hz]
          refine ⟨_, rfl, fun e he => ?_⟩
          rcases mem_dictInsert _ _ _ _ he with rfl | hmem
          · simpa using lt_of_not_le hz
          · exact hm _ hmem
    · rw [if_neg hs]
      exact ⟨m, rfl, hm⟩

/-- Running positive-quantity orders from a positive book never raises and
keeps all held quantities positive. -/
theorem runOrdersFrom_pos (orders : List OrderReq) :
    ∀ m : List (String × Position), (∀ e ∈ m, 0 < e.2.quantity) →
      (∀ o ∈ orders, 0 < o.quantity) →
      ∃ m2, runOrdersFrom m orders = .ok m2 ∧ ∀ e ∈ m2, 0 < e.2.quantity := by
  induction orders with
  | nil => intro m hm _; exact ⟨m, rfl, hm⟩
  | cons o rest ih =>
    intro m hm hall
    obtain ⟨m1, hm1, hp1⟩ := place_order_preserves_pos m o.symbol o.quantity
      o.side o.quote hm (hall o (List.mem_cons_self o rest))
    obtain ⟨m2, hm2, hp2⟩ := ih m1 hp1
      (fun o1 ho1 => hall o1 (List.mem_cons_of_mem o ho1))
    refine ⟨m2, ?_, hp2⟩
    simp only [runOrdersFrom, hm1]
    exact hm2

/-- C8: on a symbol held with quantity `q1` at entry `p1`, a BUY filled at
`p2` for `q2` with `q1 + q2 ≠ 0` merges to quantity `q1 + q2` at the
volume-weighted average entry `(p1*q1 + p2*q2)/(q1+q2)` (at `q2 = -q1` the
merge's division raises instead); a SELL driving the held quantity to zero
or below removes the position; and any sequence of positive-quantity orders
runs without error and leaves only positive-quantity positions. -/
theorem place_order_spec (m : List (String × Position)) (sym : String)
    (quote : MarketQuote) (pos1 : Position)
    (h : lookupPos m sym = some pos1) :
    (∀ q2 : ℤ, pos1.quantity + q2 ≠ 0 →
      Except.map (fun m2 => lookupPos m2 sym)
        (place_order m sym q2 "BUY" quote) =
        .ok (some { pos1 with
                    quantity := pos1.quantity + q2,
                    entry_price := (pos1.entry_price * pos1.quantity +
                        quote.last_price * q2) / ((pos1.quantity : ℚ) + q2) })) ∧
    place_order m sym (-pos1.quantity) "BUY" quote = .error .divisionByZero ∧
    (∀ q3 : ℤ, pos1.quantity - q3 ≤ 0 →
      Except.map (fun m2 => lookupPos m2 sym)
        (place_order m sym q3 "SELL" quote) = .ok none) ∧
    (∀ orders : List OrderReq, (∀ o ∈ orders, 0 < o.quantity) →
      ∃ m2, run_orders orders = .ok m2 ∧ ∀ e ∈ m2, 0 < e.2.quantity) := by
  refine ⟨fun q2 hq2 => ?_, ?_, fun q3 hq3 => ?_,
    fun orders hall => runOrdersFrom_pos orders [] (by simp) hall⟩
  · have hstep : place_order m sym q2 "BUY" quote =
        .ok (dictInsert m sym
          { pos1 with
            quantity := pos1.quantity + q2,
            entry_price := (pos1.entry_price * pos1.quantity +
                quote.last_price * q2) / ((pos1.quantity : ℚ) + q2) }) := by
      rw [place_order, if_pos rfl, h]
      dsimp only
      rw [if_neg hq2]
    rw [hstep]
    simp only [Except.map]
    rw [lookupPos_dictInsert_self]
  · rw [place_order, if_pos rfl, h]
    dsimp only
    rw [if_pos (by omega : pos1.quantity + -pos1.quantity = 0)]
  · have hstep : place_order m sym q3 "SELL" quote = .ok (dictErase m sym) := by
      rw [place_order, if_neg (by decide : ¬("SELL" = "BUY")), if_pos rfl, h]
      dsimp only
      rw [if_pos hq3]
    rw [hstep]
    simp only [Except.map]
    rw [lookupPos_dictErase_self]

/-- C8 witness: BUY 5 at 110 on 10 held at 100 gives quantity 15 at average
entry 310/3; BUY -10 hits the division error; a SELL of 12 removes the
position; and a position produced by a positive-quantity order sequence has
positive quantity. -/
theorem place_order_spec_witness :
    Except.map (fun m2 => lookupPos m2 "X") (place_order m1 "X" 5 "BUY" quoteW) =
      .ok (some { symbol := "X", quantity := 15, entry_price := 310/3,
                  current_price := 100, delta := 1/2, option_type := "CE",
                  strike_price := 100, expiry := "E" }) ∧
    place_order m1 "X" (-10) "BUY" quoteW = .error .divisionByZero ∧
    Except.map (fun m2 => lookupPos m2 "X")
      (place_order m1 "X" 12 "SELL" quoteW) = .ok none ∧
    (0:ℤ) < ({ symbol := "X", quantity := 10, entry_price := 110,
               current_price := 110, delta := 1/2, option_type := "CE",
               strike_price := 100, expiry := "E" } : Position).quantity := by
  obtain ⟨h1, h2, h3, h4⟩ := place_order_spec m1 "X" quoteW posB rfl
  refine ⟨?_, h2, h3 12 (by decide), ?_⟩
  · rw [h1 5 (by decide)]
    norm_num [posB, quoteW]
  · obtain ⟨m2, hm2, hp⟩ := h4 [⟨"X", 10, "BUY", quoteW⟩] (by decide)
    rw [show run_orders [⟨"X", 10, "BUY", quoteW⟩] =
      .ok [("X", { symbol := "X", quantity := 10, entry_price := 110,
                   current_price := 110, delta := 1/2, option_type := "CE",
                   strike_price := 100, expiry := "E" })] from rfl] at hm2
    injection hm2 with hm2eq
    rw [← hm2eq] at hp
    exact hp ("X", { symbol := "X", quantity := 10, entry_price := 110,
                     current_price := 110, delta := 1/2, option_type := "CE",
                     strike_price := 100, expiry := "E" })
      (List.mem_singleton.mpr rfl)

/-- `touchEntry` is the identity when the symbol is not in the snapshot. -/
theorem touchEntry_none (md : List (String × MarketQuote)) (s : String)
    (e : String × Position) (h : lookupQuote md s = none) :
    touchEntry md s e = e := by
  simp [touchEntry, h]

/-- One `update_positions` iteration is a pointwise map over the book. -/
theorem step_eq_map (md : List (String × MarketQuote)) (s : String)
    (acc : List (String × Position)) :
    (match lookupQuote md s with
      | some d => update_position acc s d.last_price d.delta
      | none => acc) = acc.map (touchEntry md s) := by
  cases h : lookupQuote md s with
  | none =>
    rw [List.map_id'' (fun a => touchEntry_none md s a h)]
  | some d => simp [touchEntry, h, update_position]

/-- The `update_positions` fold is the map of the per-entry cumulative
effect. -/
theorem foldl_touch (md : List (String × MarketQuote)) (syms : List String) :
    ∀ m : List (String × Position),
      syms.foldl (fun acc symbol =>
        match lookupQuote md symbol with
        | some d => update_position acc symbol d.last_price d.delta
        | none => acc) m = m.map (applyAll md syms) := by
  induction syms with
  | nil =>
    intro m
    rw [List.foldl_nil, List.map_id'' (fun a => (rfl : applyAll md [] a = a))]
  | cons s rest ih =>
    intro m
    rw [List.foldl_cons, step_eq_map, ih, List.map_map]
    rfl

/-- `update_positions` as a pointwise map. -/
theorem update_positions_eq_map (md : List (String × MarketQuote))
    (m : List (String × Position)) :
    update_positions md m = m.map (applyAll md (m.map Prod.fst)) :=
  foldl_touch md (m.map Prod.fst) m

/-- `touchEntry` for a different symbol leaves the entry unchanged. -/
theorem touchEntry_other (md : List (String × MarketQuote)) (s : String)
    (e : String × Position) (h : ¬e.1 = s) : touchEntry md s e = e := by
  cases hq : lookupQuote md s with
  | none => simp [touchEntry, hq]
  | some d => simp [touchEntry, hq, h]

/-- `applyAll` over symbols not containing the entry's key is the
identity. -/
theorem applyAll_not_mem (md : List (String × MarketQuote)) (syms : List String)
    (e : String × Position) (h : e.1 ∉ syms) : applyAll md syms e = e := by
  induction syms with
  | nil => rfl
  | cons s rest ih =>
    have hne : ¬e.1 = s := fun hc => h (hc ▸ List.mem_cons_self s rest)
    show applyAll md rest (touchEntry md s e) = e
    rw [touchEntry_other md s e hne]
    exact ih (fun hc => h (List.mem_cons_of_mem s hc))

/-- `applyAll` over symbols containing the entry's key marks the entry. -/
theorem applyAll_mem (md : List (String × MarketQuote)) (syms : List String) :
    ∀ e : String × Position, e.1 ∈ syms → applyAll md syms e = markEntry md e := by
  induction syms with
  | nil => intro e he; cases he
  | cons s rest ih =>
    intro e he
    show applyAll md rest (touchEntry md s e) = markEntry md e
    by_cases hes : e.1 = s
    · subst hes
      cases hq : lookupQuote md e.1 with
      | none =>
        rw [show touchEntry md e.1 e = e by simp [touchEntry, hq]]
        by_cases hr : e.1 ∈ rest
        · exact ih e hr
        · rw [applyAll_not_mem md rest e hr]
          simp [markEntry, hq]
      | some d =>
        have ht : touchEntry md e.1 e =
            (e.1, { e.2 with current_price := d.last_price, delta := d.delta }) := by
          simp [touchEntry, hq]
        rw [ht]
        by_cases hr : e.1 ∈ rest
        · rw [ih
            (e.1, { e.2 with current_price := d.last_price, delta := d.delta })
            hr]
          simp [markEntry, hq]
        · rw [applyAll_not_mem md rest
            (e.1, { e.2 with current_price := d.last_price, delta := d.delta }) hr]
          simp [markEntry, hq]
    · rw [touchEntry_other md s e hes]
      rcases List.mem_cons.mp he with hc | hc
      · exact absurd hc hes
      · exact ih e hc

/-- C10: `update_positions` keeps the book's length; an entry whose symbol is
absent from the snapshot is entirely unchanged, and an entry whose symbol is
in the snapshot has exactly its `current_price` and `delta` overwritten with
the snapshot values — key and all other `Position` fields unchanged. -/
theorem update_positions_spec (md : List (String × MarketQuote))
    (m : List (String × Position)) (i : ℕ) :
    (update_positions md m).length = m.length ∧
    ∀ e, m[i]? = some e →
      (lookupQuote md e.1 = none → (update_positions md m)[i]? = some e) ∧
      (∀ d, lookupQuote md e.1 = some d →
        (update_positions md m)[i]? =
          some (e.1, { e.2 with
                       current_price := d.last_price,
                       delta := d.delta })) := by
  have hmap := update_positions_eq_map md m
  refine ⟨by rw [hmap, List.length_map], fun e he => ?_⟩
  have hup : (update_positions md m)[i]? =
      some (applyAll md (m.map Prod.fst) e) := by
    rw [hmap, List.getElem?_map, he]
    rfl
  have hmem : e.1 ∈ m.map Prod.fst :=
    List.mem_map_of_mem Prod.fst (List.getElem?_mem he)
  rw [hup, applyAll_mem md _ e hmem]
  constructor
  · intro hn; simp [markEntry, hn]
  · intro d hd; simp [markEntry, hd]

/-- C10 witness: on a book over `X` and `Y` with a snapshot quoting only `X`,
the `X` entry gets price 120 and delta 3/5 with all other fields intact, and
the `Y` entry is untouched. -/
theorem update_positions_spec_witness :
    (update_positions mdW mW).length = 2 ∧
    (update_positions mdW mW)[0]? =
      some ("X", { symbol := "X", quantity := 10, entry_price := 100,
                   current_price := 120, delta := 3/5, option_type := "CE",
                   strike_price := 100, expiry := "E" }) ∧
    (update_positions mdW mW)[1]? = some ("Y", posY) := by
  obtain ⟨hlen, hrest⟩ := update_positions_spec mdW mW 0
  obtain ⟨-, hrest1⟩ := update_positions_spec mdW mW 1
  refine ⟨by rw [hlen]; rfl, ?_, ?_⟩
  · exact (hrest ("X", posB) rfl).2
      { last_price := 120, delta := 3/5, instrument_type := "CE",
        strike := 100, expiry := "E" } rfl
  · exact (hrest1 ("Y", posY) rfl).1 rfl

/-- Membership in the premium filter. -/
theorem mem_valid_options {cfg : Config} {chain : List OptionData}
    {o : OptionData} (h : o ∈ valid_options cfg chain) :
    o ∈ chain ∧ cfg.min_premium ≤ o.last_price := by
  have h1 := List.mem_filter.mp h
  exact ⟨h1.1, of_decide_eq_true h1.2⟩

/-- Membership survives the spread sort both ways. -/
theorem mem_sorted_by_spread {cfg : Config} {chain : List OptionData}
    {o : OptionData} :
    o ∈ sorted_by_spread cfg chain ↔ o ∈ valid_options cfg chain := by
  unfold sorted_by_spread
  exact List.mem_insertionSort _

/-- A call-side member is a CE option from the spread-sorted list. -/
theorem mem_call_options {cfg : Config} {chain : List OptionData}
    {o : OptionData} (h : o ∈ call_options cfg chain) :
    o.instrument_type = "CE" ∧ o ∈ sorted_by_spread cfg chain := by
  have h1 := List.mem_filter.mp h
  exact ⟨of_decide_eq_true h1.2, h1.1⟩

/-- A put-side member is a PE option from the spread-sorted list. -/
theorem mem_put_options {cfg : Config} {chain : List OptionData}
    {o : OptionData} (h : o ∈ put_options cfg chain) :
    o.instrument_type = "PE" ∧ o ∈ sorted_by_spread cfg chain := by
  have h1 := List.mem_filter.mp h
  exact ⟨of_decide_eq_true h1.2, h1.1⟩

/-- A member of a per-side selection is a member of that side. -/
theorem mem_side_selected {cfg : Config} {spot : ℚ} {side : List OptionData}
    {o : OptionData} (h : o ∈ side_selected cfg spot side) : o ∈ side := by
  have h1 := List.take_subset _ _ h
  exact (List.mem_insertionSort _).mp h1

/-- C5: `select_options` returns at most `max_positions` options, every
returned option has last traded price at least `min_premium`, and at most
`max_positions / 2` of the returned options are calls, likewise puts. -/
theorem select_options_spec (cfg : Config) (spot : ℚ)
    (chain : List OptionData) :
    (select_options cfg spot chain).length ≤ cfg.max_positions ∧
    (∀ o ∈ select_options cfg spot chain, cfg.min_premium ≤ o.last_price) ∧
    ((select_options cfg spot chain).filter
        (fun o => o.instrument_type = "CE")).length ≤ cfg.max_positions / 2 ∧
    ((select_options cfg spot chain).filter
        (fun o => o.instrument_type = "PE")).length ≤ cfg.max_positions / 2 := by
  refine ⟨List.length_take_le _ _, ?_, ?_, ?_⟩
  · intro o ho
    have h1 := List.take_subset _ _ ho
    rcases List.mem_append.mp h1 with h2 | h2
    · exact (mem_valid_options (mem_sorted_by_spread.mp
        (mem_call_options (mem_side_selected h2)).2)).2
    · exact (mem_valid_options (mem_sorted_by_spread.mp
        (mem_put_options (mem_side_selected h2)).2)).2
  · have hsub := (List.take_sublist cfg.max_positions
      (side_selected cfg spot (call_options cfg chain) ++
        side_selected cfg spot (put_options cfg chain))).filter
      (fun o : OptionData => decide (o.instrument_type = "CE"))
    rw [List.filter_append] at hsub
    have hA : (side_selected cfg spot (call_options cfg chain)).filter
        (fun o : OptionData => decide (o.instrument_type = "CE")) =
        side_selected cfg spot (call_options cfg chain) :=
      List.filter_eq_self.mpr
        (fun a ha => decide_eq_true (mem_call_options (mem_side_selected ha)).1)
    have hB : (side_selected cfg spot (put_options cfg chain)).filter
        (fun o : OptionData => decide (o.instrument_type = "CE")) = [] :=
      List.filter_eq_nil_iff.mpr (fun a ha hp => by
        have h2 := (mem_put_options (mem_side_selected ha)).1
        rw [h2] at hp
        exact absurd (of_decide_eq_true hp) (by decide))
    rw [hA, hB, List.append_nil] at hsub
    exact le_trans hsub.length_le (List.length_take_le _ _)
  · have hsub := (List.take_sublist cfg.max_positions
      (side_selected cfg spot (call_options cfg chain) ++
        side_selected cfg spot (put_options cfg chain))).filter
      (fun o : OptionData => decide (o.instrument_type = "PE"))
    rw [List.filter_append] at hsub
    have hA : (side_selected cfg spot (call_options cfg chain)).filter
        (fun o : OptionData => decide (o.instrument_type = "PE")) = [] :=
      List.filter_eq_nil_iff.mpr (fun a ha hp => by
        have h2 := (mem_call_options (mem_side_selected ha)).1
        rw [h2] at hp
        exact absurd (of_decide_eq_true hp) (by decide))
    have hB : (side_selected cfg spot (put_options cfg chain)).filter
        (fun o : OptionData => decide (o.instrument_type = "PE")) =
        side_selected cfg spot (put_options cfg chain) :=
      List.filter_eq_self.mpr
        (fun a ha => decide_eq_true (mem_put_options (mem_side_selected ha)).1)
    rw [hA, hB, List.nil_append] at hsub
    exact le_trans hsub.length_le (List.length_take_le _ _)

/-- C5 witness: on the three-option chain the selection holds at most 5
options, the selected option `cW2` clears the premium floor, and each side
contributes at most `5 / 2 = 2` options. -/
theorem select_options_spec_witness :
    (select_options cfgEx 100 chainW).length ≤ 5 ∧
    (2:ℚ) ≤ cW2.last_price ∧
    ((select_options cfgEx 100 chainW).filter
        (fun o => o.instrument_type = "CE")).length ≤ 2 ∧
    ((select_options cfgEx 100 chainW).filter
        (fun o => o.instrument_type = "PE")).length ≤ 2 := by
  obtain ⟨h1, h2, h3, h4⟩ := select_options_spec cfgEx 100 chainW
  refine ⟨h1, h2 cW2 ?_, h3, h4⟩
  rw [show select_options cfgEx 100 chainW = [cW2, cW1, pW1] from by
    norm_num [select_options, side_selected, call_options, put_options,
      sorted_by_spread, valid_options, List.insertionSort, List.orderedInsert,
      spread, strikeDist, cfgEx, cW1, cW2, pW1, chainW]]
  exact List.mem_cons_self cW2 [cW1, pW1]

/-- A pair that is a sublist of a duplicate-free list and whose members both
survive `take k` is a sublist of the `take k` prefix. -/
theorem pair_sublist_take {α : Type} {a b : α} :
    ∀ (l : List α) (k : ℕ), l.Nodup → [a, b] <+ l →
      a ∈ l.take k → b ∈ l.take k → [a, b] <+ l.take k := by
  intro l
  induction l with
  | nil => intro k _ _ ha _; simp at ha
  | cons x rest ih =>
    intro k hnd h ha hb
    cases k with
    | zero => simp at ha
    | succ k =>
      rw [List.take_succ_cons] at ha hb ⊢
      have hx : x ∉ rest := (List.nodup_cons.mp hnd).1
      have hnd2 : rest.Nodup := (List.nodup_cons.mp hnd).2
      cases h with
      | cons _ h2 =>
        have hain : a ∈ rest := h2.subset (by simp)
        have hbin : b ∈ rest := h2.subset (by simp)
        have ha2 : a ∈ rest.take k := by
          rcases List.mem_cons.mp ha with rfl | hm
          · exact absurd hain hx
          · exact hm
        have hb2 : b ∈ rest.take k := by
          rcases List.mem_cons.mp hb with rfl | hm
          · exact absurd hbin hx
          · exact hm
        exact (ih k hnd2 h2 ha2 hb2).cons x
      | cons₂ _ h2 =>
        have hbin : b ∈ rest := h2.subset (by simp)
        have hb2 : b ∈ rest.take k := by
          rcases List.mem_cons.mp hb with rfl | hm
          · exact absurd hbin hx
          · exact hm
        exact (List.singleton_sublist.mpr hb2).cons₂ a

/-- C6: two distinct options of the same type that tie in both selection keys
(equal bid-ask spread and equal strike distance from spot) and are both
selected appear in the selection in their original chain order: the stable
sorts make `select_options` deterministic. -/
theorem select_options_stable (cfg : Config) (spot : ℚ)
    (chain : List OptionData) (a b : OptionData) (hnd : chain.Nodup)
    (hsub : [a, b] <+ chain)
    (htype : a.instrument_type = b.instrument_type)
    (hspread : spread a = spread b)
    (hdist : strikeDist spot a = strikeDist spot b)
    (ha : a ∈ select_options cfg spot chain)
    (hb : b ∈ select_options cfg spot chain) :
    [a, b] <+ select_options cfg spot chain := by
  have hmem_valid : ∀ o ∈ select_options cfg spot chain,
      o ∈ valid_options cfg chain := by
    intro o ho
    have h1 := List.take_subset _ _ ho
    rcases List.mem_append.mp h1 with h2 | h2
    · exact mem_sorted_by_spread.mp (mem_call_options (mem_side_selected h2)).2
    · exact mem_sorted_by_spread.mp (mem_put_options (mem_side_selected h2)).2
  have hav := hmem_valid a ha
  have hbv := hmem_valid b hb
  have hsubv : [a, b] <+ valid_options cfg chain := by
    have hf : List.filter
        (fun o => decide (cfg.min_premium ≤ o.last_price)) [a, b] = [a, b] := by
      rw [List.filter_eq_self]
      intro o ho
      rcases List.mem_cons.mp ho with rfl | ho2
      · exact decide_eq_true (mem_valid_options hav).2
      · rw [List.mem_singleton.mp ho2]
        exact decide_eq_true (mem_valid_options hbv).2
    have h2 := hsub.filter (fun o => decide (cfg.min_premium ≤ o.last_price))
    rw [hf] at h2
    exact h2
  have hsub1 : [a, b] <+ sorted_by_spread cfg chain := by
    unfold sorted_by_spread
    exact List.pair_sublist_insertionSort (le_of_eq hspread) hsubv
  have hndv : (valid_options cfg chain).Nodup := hnd.filter _
  have hnds : (sorted_by_spread cfg chain).Nodup :=
    (List.perm_insertionSort _ _).nodup_iff.mpr hndv
  have hndc : (call_options cfg chain).Nodup := hnds.filter _
  have hndp : (put_options cfg chain).Nodup := hnds.filter _
  have hndcs : ((call_options cfg chain).insertionSort
      (fun x y => strikeDist spot x ≤ strikeDist spot y)).Nodup :=
    (List.perm_insertionSort _ _).nodup_iff.mpr hndc
  have hndps : ((put_options cfg chain).insertionSort
      (fun x y => strikeDist spot x ≤ strikeDist spot y)).Nodup :=
    (List.perm_insertionSort _ _).nodup_iff.mpr hndp
  have hndA : (side_selected cfg spot (call_options cfg chain)).Nodup :=
    List.Nodup.sublist (List.take_sublist _ _) hndcs
  have hndB : (side_selected cfg spot (put_options cfg chain)).Nodup :=
    List.Nodup.sublist (List.take_sublist _ _) hndps
  have hdisj : (side_selected cfg spot (call_options cfg chain)).Disjoint
      (side_selected cfg spot (put_options cfg chain)) := by
    intro o hoA hoB
    have h1 := (mem_call_options (mem_side_selected hoA)).1
    have h2 := (mem_put_options (mem_side_selected hoB)).1
    rw [h1] at h2
    exact absurd h2 (by decide)
  have hndAB : (side_selected cfg spot (call_options cfg chain) ++
      side_selected cfg spot (put_options cfg chain)).Nodup :=
    List.nodup_append.mpr ⟨hndA, hndB, hdisj⟩
  by_cases hCE : a.instrument_type = "CE"
  · have hbCE : b.instrument_type = "CE" := by rw [← htype]; exact hCE
    have hsubc : [a, b] <+ call_options cfg chain := by
      have hf : List.filter
          (fun o => decide (o.instrument_type = "CE")) [a, b] = [a, b] := by
        rw [List.filter_eq_self]
        intro o ho
        rcases List.mem_cons.mp ho with rfl | ho2
        · exact decide_eq_true hCE
        · rw [List.mem_singleton.mp ho2]
          exact decide_eq_true hbCE
      have h2 := hsub1.filter (fun o => decide (o.instrument_type = "CE"))
      rw [hf] at h2
      exact h2
    have hsubc2 : [a, b] <+ (call_options cfg chain).insertionSort
        (fun x y => strikeDist spot x ≤ strikeDist spot y) :=
      List.pair_sublist_insertionSort (le_of_eq hdist) hsubc
    have haA : a ∈ side_selected cfg spot (call_options cfg chain) := by
      rcases List.mem_append.mp (List.take_subset _ _ ha) with h2 | h2
      · exact h2
      · have h3 := (mem_put_options (mem_side_selected h2)).1
        rw [hCE] at h3
        exact absurd h3 (by decide)
    have hbA : b ∈ side_selected cfg spot (call_options cfg chain) := by
      rcases List.mem_append.mp (List.take_subset _ _ hb) with h2 | h2
      · exact h2
      · have h3 := (mem_put_options (mem_side_selected h2)).1
        rw [hbCE] at h3
        exact absurd h3 (by decide)
    have hA : [a, b] <+ side_selected cfg spot (call_options cfg chain) :=
      pair_sublist_take _ _ hndcs hsubc2 haA hbA
    have hAB : [a, b] <+ side_selected cfg spot (call_options cfg chain) ++
        side_selected cfg spot (put_options cfg chain) :=
      hA.trans (List.sublist_append_left _ _)
    exact pair_sublist_take _ _ hndAB hAB ha hb
  · have haPE : a.instrument_type = "PE" := by
      rcases List.mem_append.mp (List.take_subset _ _ ha) with h2 | h2
      · exact absurd (mem_call_options (mem_side_selected h2)).1 hCE
      · exact (mem_put_options (mem_side_selected h2)).1
    have hbPE : b.instrument_type = "PE" := by rw [← htype]; exact haPE
    have hsubp : [a, b] <+ put_options cfg chain := by
      have hf : List.filter
          (fun o => decide (o.instrument_type = "PE")) [a, b] = [a, b] := by
        rw [List.filter_eq_self]
        intro o ho
        rcases List.mem_cons.mp ho with rfl | ho2
        · exact decide_eq_true haPE
        · rw [List.mem_singleton.mp ho2]
          exact decide_eq_true hbPE
      have h2 := hsub1.filter (fun o => decide (o.instrument_type = "PE"))
      rw [hf] at h2
      exact h2
    have hsubp2 : [a, b] <+ (put_options cfg chain).insertionSort
        (fun x y => strikeDist spot x ≤ strikeDist spot y) :=
      List.pair_sublist_insertionSort (le_of_eq hdist) hsubp
    have haB : a ∈ side_selected cfg spot (put_options cfg chain) := by
      rcases List.mem_append.mp (List.take_subset _ _ ha) with h2 | h2
      · have h3 := (mem_call_options (mem_side_selected h2)).1
        exact absurd h3 hCE
      · exact h2
    have hbB : b ∈ side_selected cfg spot (put_options cfg chain) := by
      rcases List.mem_append.mp (List.take_subset _ _ hb) with h2 | h2
      · have h3 := (mem_call_options (mem_side_selected h2)).1
        rw [h3] at hbPE
        exact absurd hbPE (by decide)
      · exact h2
    have hB : [a, b] <+ side_selected cfg spot (put_options cfg chain) :=
      pair_sublist_take _ _ hndps hsubp2 haB hbB
    have hAB : [a, b] <+ side_selected cfg spot (call_options cfg chain) ++
        side_selected cfg spot (put_options cfg chain) :=
      hB.trans (List.sublist_append_right _ _)
    exact pair_sublist_take _ _ hndAB hAB ha hb

/-- C6 witness: on the two-call chain whose options tie in spread and strike
distance, both are selected and keep their original chain order. -/
theorem select_options_stable_witness :
    [cT1, cT2] <+ select_options cfgEx 100 chainT := by
  have hsel : select_options cfgEx 100 chainT = [cT1, cT2] := by
    norm_num [select_options, side_selected, call_options, put_options,
      sorted_by_spread, valid_options, List.insertionSort, List.orderedInsert,
      spread, strikeDist, cfgEx, cT1, cT2, chainT]
  exact select_options_stable cfgEx 100 chainT cT1 cT2
    (by decide)
    (List.Sublist.refl chainT)
    rfl
    (by norm_num [spread, cT1, cT2])
    (by norm_num [strikeDist, cT1, cT2])
    (by rw [hsel]; exact List.mem_cons_self cT1 [cT2])
    (by rw [hsel]; exact List.mem_cons_of_mem cT1 (List.mem_singleton.mpr rfl))

end VikasStrategy
